import Mathlib

set_option maxHeartbeats 1000000

namespace FenicsAdjoint

/-- Runtime kind of a coefficient appearing in a form, as the propagation
loops classify it with isinstance checks: a field unknown (backend.Function),
a scalar parameter (backend.Constant), a spatially varying parametric
expression (backend.Expression), or any other coefficient type. -/
inductive CoeffKind
  | function
  | constant
  | expression
  | other
deriving DecidableEq

/-- A symbolic coefficient of a form, identified by an id and carrying its
runtime kind. -/
structure Coeff where
  id : Nat
  kind : CoeffKind
deriving DecidableEq

/-- A function space, as the code constructs them: a field's own space,
c.function_space(), or the sensitivity space a coefficient associates with a
mesh, c._ad_function_space(mesh). Meshes are opaque ids. -/
inductive Space
  | functionSpace (c : Coeff)
  | adFunctionSpace (c : Coeff) (mesh : Nat)
deriving DecidableEq

/-- The value the substituted form is differentiated at: the dependency's
saved (checkpointed) output when the replacement dictionary holds the
coefficient, else the coefficient itself, as in replaced_coeffs.get(c, c).
Saved outputs are opaque ids. -/
inductive Replaced
  | saved (v : Nat)
  | orig (c : Coeff)
deriving DecidableEq

/-- A differentiation direction: a symbolic test function over a space,
backend.TestFunction(V), or a concrete tangent value (opaque id). -/
inductive Direction
  | testFunction (V : Space)
  | coeffValue (v : Nat)
deriving DecidableEq

/-- Symbolic weak forms. A base form lists its syntactic coefficient
occurrences and its mesh; backend.replace(form, replaced_coeffs) and
backend.derivative(form, c_rep, dc) build derived forms symbolically. -/
inductive Form
  | base (coeffs : List Coeff) (mesh : Nat)
  | replace (f : Form) (subst : List (Coeff × Nat))
  | deriv (f : Form) (wrt : Replaced) (dir : Direction)
deriving DecidableEq

/-- Symbolic assembled values: backend.assemble(form), seed times a value,
the overloaded wrapper of a value, and the checkpoint taken of a value. -/
inductive AVal
  | assembled (f : Form)
  | smul (seed : Nat) (v : AVal)
  | overloaded (v : AVal)
  | adCheckpoint (v : AVal)
deriving DecidableEq

/-- One contribution pushed into an adjoint or Hessian accumulator: either a
bare value (add_adj_output(adj_input * output)) or a list of (value, space)
pairs (add_adj_output([[adj_input * output, V]])). -/
inductive AdjContribution
  | plain (v : AVal)
  | pairs (l : List (AVal × Space))
deriving DecidableEq

/-- A dependency edge (the block output of one coefficient): the coefficient
itself (get_output()), its saved checkpointed value (get_saved_output()), its
tangent direction value (tlm_value), and its adjoint and Hessian
accumulators, modelled as the lists of contributions pushed so far. -/
structure BlockOutput where
  output : Coeff
  savedOutput : Nat
  tlmValue : Option Nat
  adjAcc : List AdjContribution
  hessianAcc : List AdjContribution
deriving DecidableEq

/-- The node's single output slot (get_outputs()[0]): adjoint seed, Hessian
seed, tangent accumulator, and the checkpoint stored by recompute. -/
structure OutputSlot where
  adjValue : Option Nat
  hessianValue : Option Nat
  tlmAcc : List AVal
  checkpoint : Option AVal
deriving DecidableEq

/-- The AssembleBlock tape node: the form it was built from, its ordered
dependency edges, and its single output slot. -/
structure AssembleBlock where
  form : Form
  dependencies : List BlockOutput
  out : OutputSlot
deriving DecidableEq

/-- Modelled from the spec: the discretization library's coefficients(form)
operation returns the distinct coefficients of a form as an ordered set, in a
stable order, one entry per distinct coefficient however often it occurs
syntactically. -/
def Form.coefficients : Form → List Coeff
  | .base cs _ => cs.dedup
  | .replace f _ => f.coefficients
  | .deriv f _ _ => f.coefficients

/-- The syntactic coefficient occurrences of a form, duplicates included. -/
def Form.coeffList : Form → List Coeff
  | .base cs _ => cs
  | .replace f _ => f.coeffList
  | .deriv f _ _ => f.coeffList

/-- Modelled from the spec: owning_mesh(form). Replacement and
differentiation keep the integration domain of the form they derive from. -/
def Form.meshOf : Form → Nat
  | .base _ m => m
  | .replace f _ => f.meshOf
  | .deriv f _ _ => f.meshOf

/-- form.ufl_domain().ufl_cargo(): the mesh underlying the form's domain. -/
def Form.uflDomainCargo (f : Form) : Nat := f.meshOf

/-- compat.extract_mesh_from_form(form): the mesh underlying the form. -/
def extractMeshFromForm (f : Form) : Nat := f.meshOf

/-- Lookup in the replaced_coeffs dictionary: the dictionary is built by
insertion with later bindings winning, and queried with .get(c, c), which
defaults to the coefficient itself when the key is absent. -/
def dictGet : List (Coeff × Nat) → Coeff → Replaced
  | [], c => .orig c
  | (k, v) :: rest, c =>
    match dictGet rest c with
    | .orig _ => if k = c then .saved v else .orig c
    | r => r

/-- The replaced_coeffs mapping of a dependency list: each dependency's
coefficient bound to its saved checkpointed output. -/
def replacedCoeffs (deps : List BlockOutput) : List (Coeff × Nat) :=
  deps.map fun e => (e.output, e.savedOutput)

/-- create_overloaded_object: wrap a raw assembled value. -/
def createOverloadedObject (v : AVal) : AVal := .overloaded v

/-- output._ad_create_checkpoint(): take a checkpoint of a value. -/
def adCreateCheckpoint (v : AVal) : AVal := .adCheckpoint v

/-- A freshly created output slot, with no seeds, accumulators or
checkpoint. -/
def freshSlot : OutputSlot :=
  { adjValue := none, hessianValue := none, tlmAcc := [], checkpoint := none }

/-- AssembleBlock.__init__(form): store the form and add one dependency per
coefficient returned by form.coefficients(), each edge being the
coefficient's block output (supplied here by the ambient slotOf map, with
each coefficient's get_block_output() returning its own slot). The single
output slot starts fresh; assemble links it by add_output afterwards. -/
def AssembleBlock.init (form : Form) (slotOf : Coeff → BlockOutput) :
    AssembleBlock :=
  { form := form
  , dependencies := form.coefficients.map slotOf
  , out := freshSlot }

/-- block.add_output(slot): link the node's single output slot. -/
def AssembleBlock.add_output (b : AssembleBlock) (s : OutputSlot) :
    AssembleBlock :=
  { b with out := s }

/-- One iteration of the dependency loop of AssembleBlock.evaluate_adj. The
loop-carried dc is the local variable of the Python loop body: Expression,
Function and Constant iterations assign it; an iteration over any other
coefficient kind reads it unassigned — an unbound local error, modelled as
none — or reuses the stale direction left by an earlier iteration. -/
def adjStep (origForm form : Form) (subst : List (Coeff × Nat)) (adjIn : Nat)
    (dc : Option Direction) (bo : BlockOutput) :
    Option (BlockOutput × Direction) :=
  let c := bo.output
  let cRep := dictGet subst c
  match c.kind with
  | .expression =>
    let mesh := origForm.uflDomainCargo
    let V : Space := .adFunctionSpace c mesh
    let dc1 : Direction := .testFunction V
    let dform : Form := .deriv form cRep dc1
    let output : AVal := .assembled dform
    some ({ bo with adjAcc := bo.adjAcc ++ [.pairs [(.smul adjIn output, V)]] },
          dc1)
  | .function =>
    let dc1 : Direction := .testFunction (.functionSpace c)
    let dform : Form := .deriv form cRep dc1
    let output : AVal := .assembled dform
    some ({ bo with adjAcc := bo.adjAcc ++ [.plain (.smul adjIn output)] }, dc1)
  | .constant =>
    let mesh := extractMeshFromForm origForm
    let dc1 : Direction := .testFunction (.adFunctionSpace c mesh)
    let dform : Form := .deriv form cRep dc1
    let output : AVal := .assembled dform
    some ({ bo with adjAcc := bo.adjAcc ++ [.plain (.smul adjIn output)] }, dc1)
  | .other =>
    match dc with
    | none => none
    | some d =>
      let dform : Form := .deriv form cRep d
      let output : AVal := .assembled dform
      some ({ bo with adjAcc := bo.adjAcc ++ [.plain (.smul adjIn output)] }, d)

/-- The dependency loop of AssembleBlock.evaluate_adj, threading the dc local
through the iterations; none models an exception aborting the pass. -/
def adjLoop (origForm form : Form) (subst : List (Coeff × Nat)) (adjIn : Nat) :
    Option Direction → List BlockOutput → Option (List BlockOutput)
  | _, [] => some []
  | dc, bo :: rest =>
    match adjStep origForm form subst adjIn dc bo with
    | none => none
    | some (bo1, d1) =>
      (adjLoop origForm form subst adjIn (some d1) rest).map (bo1 :: ·)

/-- AssembleBlock.evaluate_adj: read the adjoint seed from the single output
slot, return if it is absent, else build the substituted form
backend.replace(self.form, replaced_coeffs) and run the dependency loop;
none models the pass raising. -/
def AssembleBlock.evaluate_adj (b : AssembleBlock) : Option AssembleBlock :=
  match b.out.adjValue with
  | none => some b
  | some adjIn =>
    let subst := replacedCoeffs b.dependencies
    let form := Form.replace b.form subst
    (adjLoop b.form form subst adjIn none b.dependencies).map
      fun deps => { b with dependencies := deps }

/-- One dependency's contribution in AssembleBlock.evaluate_tlm: skip when
tlm_value is absent; otherwise the Function, Constant and Expression branches
each differentiate the substituted form at the replaced value in the
direction of the tangent value itself and assemble; any other kind falls
through the isinstance chain with no effect. -/
def tlmStep (form : Form) (subst : List (Coeff × Nat)) (bo : BlockOutput) :
    Option AVal :=
  let cRep := dictGet subst bo.output
  match bo.tlmValue with
  | none => none
  | some t =>
    match bo.output.kind with
    | .function => some (.assembled (.deriv form cRep (.coeffValue t)))
    | .constant => some (.assembled (.deriv form cRep (.coeffValue t)))
    | .expression => some (.assembled (.deriv form cRep (.coeffValue t)))
    | .other => none

/-- AssembleBlock.evaluate_tlm: build the substituted form and push each
dependency's contribution, in order, into the single output slot's tangent
accumulator. -/
def AssembleBlock.evaluate_tlm (b : AssembleBlock) : AssembleBlock :=
  let subst := replacedCoeffs b.dependencies
  let form := Form.replace b.form subst
  { b with out := { b.out with
      tlmAcc := b.out.tlmAcc ++ b.dependencies.filterMap (tlmStep form subst) } }

/-- The inner (c2) loop of AssembleBlock.evaluate_hessian, producing the list
of contributions pushed into the outer dependency's Hessian accumulator: for
each inner dependency carrying a tlm_value, differentiate dform again at the
inner replaced value in the tangent direction, assemble, and multiply by the
adjoint seed — adj_input being None makes that product raise (none). The
branch taken dispatches on the outer coefficient's kind; W is only read in
the Expression branch. -/
def hessInnerLoop (subst : List (Coeff × Nat)) (dform : Form)
    (adjIn : Option Nat) (c1kind : CoeffKind) (W : Space) :
    List BlockOutput → Option (List AdjContribution)
  | [] => some []
  | bo2 :: rest =>
    let c2Rep := dictGet subst bo2.output
    match bo2.tlmValue with
    | none => hessInnerLoop subst dform adjIn c1kind W rest
    | some t =>
      let ddform : Form := .deriv dform c2Rep (.coeffValue t)
      let output : AVal := .assembled ddform
      match c1kind with
      | .function =>
        match adjIn with
        | none => none
        | some a =>
          (hessInnerLoop subst dform adjIn c1kind W rest).map
            (AdjContribution.plain (.smul a output) :: ·)
      | .expression =>
        match adjIn with
        | none => none
        | some a =>
          (hessInnerLoop subst dform adjIn c1kind W rest).map
            (AdjContribution.pairs [(.smul a output, W)] :: ·)
      | .constant =>
        match adjIn with
        | none => none
        | some a =>
          (hessInnerLoop subst dform adjIn c1kind W rest).map
            (AdjContribution.plain (.smul a output) :: ·)
      | .other => hessInnerLoop subst dform adjIn c1kind W rest

/-- One outer (c1) iteration of AssembleBlock.evaluate_hessian: dispatch on
the outer coefficient's kind to build the test direction (continue on an
unrecognized kind), differentiate the substituted form at the outer replaced
value against it, run the inner loop over all dependencies, and finally push
the hessian seed times the assembled unmixed first derivative — wrapped in a
(value, space) pair when the outer coefficient is an Expression. -/
def hessOuterStep (form : Form) (subst : List (Coeff × Nat))
    (adjIn : Option Nat) (hessIn : Nat) (deps : List BlockOutput)
    (bo1 : BlockOutput) : Option BlockOutput :=
  let c1 := bo1.output
  let c1Rep := dictGet subst c1
  match c1.kind with
  | .function =>
    let W : Space := .functionSpace c1
    let dc : Direction := .testFunction W
    let dform : Form := .deriv form c1Rep dc
    match hessInnerLoop subst dform adjIn .function W deps with
    | none => none
    | some contribs =>
      some { bo1 with hessianAcc := bo1.hessianAcc ++ contribs
               ++ [.plain (.smul hessIn (.assembled dform))] }
  | .expression =>
    let mesh := form.uflDomainCargo
    let W : Space := .adFunctionSpace c1 mesh
    let dc : Direction := .testFunction W
    let dform : Form := .deriv form c1Rep dc
    match hessInnerLoop subst dform adjIn .expression W deps with
    | none => none
    | some contribs =>
      some { bo1 with hessianAcc := bo1.hessianAcc ++ contribs
               ++ [.pairs [(.smul hessIn (.assembled dform), W)]] }
  | .constant =>
    let mesh := extractMeshFromForm form
    let W : Space := .adFunctionSpace c1 mesh
    let dc : Direction := .testFunction W
    let dform : Form := .deriv form c1Rep dc
    match hessInnerLoop subst dform adjIn .constant W deps with
    | none => none
    | some contribs =>
      some { bo1 with hessianAcc := bo1.hessianAcc ++ contribs
               ++ [.plain (.smul hessIn (.assembled dform))] }
  | .other => some bo1

/-- The outer loop of AssembleBlock.evaluate_hessian over the dependency
list; deps is the full dependency list handed to every inner loop. -/
def hessOuterLoop (form : Form) (subst : List (Coeff × Nat))
    (adjIn : Option Nat) (hessIn : Nat) (deps : List BlockOutput) :
    List BlockOutput → Option (List BlockOutput)
  | [] => some []
  | bo1 :: rest =>
    match hessOuterStep form subst adjIn hessIn deps bo1 with
    | none => none
    | some bo1' =>
      (hessOuterLoop form subst adjIn hessIn deps rest).map (bo1' :: ·)

/-- AssembleBlock.evaluate_hessian: read the Hessian seed and the adjoint
seed from the single output slot, return if the Hessian seed is absent, else
build the substituted form and run the nested loops; none models the pass
raising. -/
def AssembleBlock.evaluate_hessian (b : AssembleBlock) : Option AssembleBlock :=
  let adjIn := b.out.adjValue
  match b.out.hessianValue with
  | none => some b
  | some hessIn =>
    let subst := replacedCoeffs b.dependencies
    let form := Form.replace b.form subst
    (hessOuterLoop form subst adjIn hessIn b.dependencies b.dependencies).map
      fun deps => { b with dependencies := deps }

/-- AssembleBlock.recompute: substitute each dependency's saved value into
the form, assemble it, wrap the result as an overloaded object, and store its
checkpoint on the single output slot. -/
def AssembleBlock.recompute (b : AssembleBlock) : AssembleBlock :=
  let subst := replacedCoeffs b.dependencies
  let form := Form.replace b.form subst
  let output := createOverloadedObject (.assembled form)
  { b with out := { b.out with checkpoint := some (adCreateCheckpoint output) } }

/-- What backend.assemble(*args, **kwargs) returned: a float, or a vector or
matrix (opaque ids). -/
inductive BackendOutput
  | scalar (v : Nat)
  | vecmat (v : Nat)
deriving DecidableEq

/-- Whether the backend result is a float. -/
def BackendOutput.isScalar : BackendOutput → Bool
  | .scalar _ => true
  | .vecmat _ => false

/-- The overloaded annotated wrapper of a float, exposing its bookkeeping
slot through get_block_output(). -/
structure OverloadedFloat where
  val : Nat
  blockOutput : OutputSlot
deriving DecidableEq

/-- What the overloaded assemble returns to its caller: the raw backend
float (which the code never chooses), the overloaded wrapper of a float, or
a vector or matrix carrying its optional form metadata. -/
inductive AssembleReturn
  | rawFloat (v : Nat)
  | floatOut (o : OverloadedFloat)
  | vecmatOut (v : Nat) (form : Option Form)
deriving DecidableEq

/-- The form metadata attribute of an assemble result, if any. -/
def AssembleReturn.formMeta : AssembleReturn → Option Form
  | .rawFloat _ => none
  | .floatOut _ => none
  | .vecmatOut _ f => f

/-- The working tape: the list of blocks registered on it. -/
structure Tape where
  blocks : List AssembleBlock
deriving DecidableEq

/-- The overloaded assemble: the backend assembly runs with recording
suspended and its result is an input here; args[0] is the form. A float
result is wrapped by create_overloaded_object and, when annotation is
active, an AssembleBlock is built from the form, added to the working tape
and linked by add_output to the wrapper's block output slot; a vector or
matrix result only gets the form attached as metadata, with no tape
interaction. -/
def assemble (annotate : Bool) (form : Form) (backendResult : BackendOutput)
    (slotOf : Coeff → BlockOutput) (tape : Tape) : Tape × AssembleReturn :=
  match backendResult with
  | .scalar v =>
    let output : OverloadedFloat := { val := v, blockOutput := freshSlot }
    if annotate then
      let block := AssembleBlock.init form slotOf
      let block := block.add_output output.blockOutput
      ({ blocks := tape.blocks ++ [block] }, .floatOut output)
    else
      (tape, .floatOut output)
  | .vecmat v =>
    (tape, .vecmatOut v (some form))

/-- Whether a coefficient kind is one the propagation recipes recognize. -/
def recognized (k : CoeffKind) : Bool :=
  match k with
  | .other => false
  | _ => true

/-- The uniform tangent contribution of one dependency: nothing without a
tangent value, and otherwise, for every recognized kind alike, the assembled
derivative of the substituted form at the replaced value in the direction of
the tangent value itself. -/
def tlmSpecStep (form : Form) (subst : List (Coeff × Nat)) (bo : BlockOutput) :
    Option AVal :=
  match bo.tlmValue with
  | none => none
  | some t =>
    if recognized bo.output.kind then
      some (.assembled (.deriv form (dictGet subst bo.output) (.coeffValue t)))
    else none

theorem tlmStep_eq_spec (form : Form) (subst : List (Coeff × Nat)) :
    tlmStep form subst = tlmSpecStep form subst := by
  funext bo
  unfold tlmStep tlmSpecStep
  cases bo.tlmValue <;> cases hk : bo.output.kind <;> simp [recognized, hk]

theorem coefficients_eq_dedup (f : Form) :
    f.coefficients = f.coeffList.dedup := by
  induction f with
  | base cs m => rfl
  | replace g s ih => simpa [Form.coefficients, Form.coeffList] using ih
  | deriv g w d ih => simpa [Form.coefficients, Form.coeffList] using ih

/-- C6: recompute stores as the output checkpoint the checkpointed overloaded
wrapper of the assembly of the form with every dependency's saved value
substituted in, and running recompute twice in a row with unchanged saved
dependency values stores the identical checkpoint. -/
theorem recompute_assembles_substituted (b : AssembleBlock) :
    b.recompute.out.checkpoint
      = some (adCreateCheckpoint (createOverloadedObject
          (.assembled (Form.replace b.form (replacedCoeffs b.dependencies))))) ∧
    b.recompute.recompute.out.checkpoint = b.recompute.out.checkpoint :=
  ⟨rfl, rfl⟩

/-- C7: tangent propagation treats field, constant and expression
dependencies uniformly: each dependency with a tangent value contributes the
assembled derivative of the substituted form in the direction of the tangent
value itself, appended to the node's single output tangent accumulator, and
dependencies without a tangent value contribute nothing. -/
theorem tlm_uniform_over_kinds (b : AssembleBlock) :
    b.evaluate_tlm = { b with out := { b.out with
      tlmAcc := b.out.tlmAcc ++ b.dependencies.filterMap
        (tlmSpecStep (Form.replace b.form (replacedCoeffs b.dependencies))
          (replacedCoeffs b.dependencies)) } } := by
  simp only [AssembleBlock.evaluate_tlm, tlmStep_eq_spec]

/-- C8: the node built from a form has exactly one dependency edge per
distinct coefficient occurring in the form — the edges' coefficients are the
library's deduplicated stable coefficient list, which has no duplicates, and
each coefficient occurring syntactically is hit by exactly one edge. -/
theorem dependency_edges_dedup_stable (f : Form)
    (slotOf : Coeff → BlockOutput) (h : ∀ c, (slotOf c).output = c) :
    ((AssembleBlock.init f slotOf).dependencies.map (fun e => e.output)
        = f.coefficients) ∧
    f.coefficients.Nodup ∧
    (∀ c : Coeff,
      ((AssembleBlock.init f slotOf).dependencies.map
          (fun e => e.output)).count c
        = if c ∈ f.coeffList then 1 else 0) := by
  have hmap : (AssembleBlock.init f slotOf).dependencies.map (fun e => e.output)
      = f.coefficients := by
    show (f.coefficients.map slotOf).map (fun e => e.output) = f.coefficients
    rw [List.map_map]
    have : ((fun e => e.output) ∘ slotOf) = fun c => (slotOf c).output := rfl
    rw [this]
    induction f.coefficients with
    | nil => rfl
    | cons a l ih => simp [h, ih]
  refine ⟨hmap, ?_, ?_⟩
  · rw [coefficients_eq_dedup]
    exact List.nodup_dedup _
  · intro c
    rw [hmap, coefficients_eq_dedup]
    by_cases hc : c ∈ f.coeffList
    · rw [if_pos hc]
      exact List.count_eq_one_of_mem (List.nodup_dedup _)
        (List.mem_dedup.mpr hc)
    · rw [if_neg hc]
      exact List.count_eq_zero_of_not_mem
        (fun hmem => hc (List.mem_dedup.mp hmem))

/-- An edge for coefficient c with saved output s and tangent value t, with
empty accumulators. -/
def mkEdge (c : Coeff) (s : Nat) (t : Option Nat) : BlockOutput :=
  { output := c, savedOutput := s, tlmValue := t, adjAcc := [], hessianAcc := [] }

/-- An output slot carrying the given adjoint and Hessian seeds, with an
empty tangent accumulator and no checkpoint. -/
def mkSlot (a h : Option Nat) : OutputSlot :=
  { adjValue := a, hessianValue := h, tlmAcc := [], checkpoint := none }

/-- A slot map assigning each coefficient an edge that references it. -/
def witSlotOf : Coeff → BlockOutput := fun c => mkEdge c 0 none

/-- A form in which one coefficient occurs twice. -/
def witForm8 : Form :=
  .base [⟨0, .function⟩, ⟨1, .constant⟩, ⟨0, .function⟩] 0

theorem dependency_edges_dedup_stable_witness :
    (AssembleBlock.init witForm8 witSlotOf).dependencies.map (fun e => e.output)
      = witForm8.coefficients :=
  (dependency_edges_dedup_stable witForm8 witSlotOf (fun _ => rfl)).1

/-- A block whose only dependency has an unrecognized coefficient kind, with
an adjoint seed present. -/
def cexBlock3 : AssembleBlock :=
  { form := .base [⟨0, .other⟩] 0
  , dependencies := [mkEdge ⟨0, .other⟩ 1 none]
  , out := mkSlot (some 1) none }

/-- A block whose dependencies are a Function coefficient followed by an
unrecognized coefficient, with an adjoint seed present. -/
def cexBlock3b : AssembleBlock :=
  { form := .base [⟨0, .function⟩, ⟨1, .other⟩] 0
  , dependencies := [mkEdge ⟨0, .function⟩ 1 none, mkEdge ⟨1, .other⟩ 2 none]
  , out := mkSlot (some 1) none }

/-- C3: the adjoint pass does not silently skip an unrecognized coefficient
kind: when such a coefficient comes first the pass raises an unbound local
error on the dc direction (modelled as none), and when a recognized
coefficient precedes it the pass reuses the stale direction and pushes a
contribution into the unrecognized coefficient's own adjoint accumulator —
both dependency accumulators of cexBlock3b end up with one entry. -/
theorem adjoint_unrecognized_kind_not_skipped :
    cexBlock3.evaluate_adj = none ∧
    (cexBlock3b.evaluate_adj.map fun b1 =>
        b1.dependencies.map fun e => e.adjAcc.length) = some [1, 1] :=
  ⟨rfl, rfl⟩

/-- A block with the Hessian seed present but the adjoint seed and every
tangent value absent. -/
def cexBlock4 : AssembleBlock :=
  { form := .base [⟨0, .function⟩] 0
  , dependencies := [mkEdge ⟨0, .function⟩ 5 none]
  , out := mkSlot none (some 2) }

/-- C4 counterexample: Hessian propagation with the adjoint seed and all
tangent values absent but the Hessian seed present is not a no-op — the
dependency's Hessian accumulator receives the hessian seed times the
assembled unmixed first derivative. -/
theorem hessian_missing_adjoint_input_not_noop :
    cexBlock4.evaluate_hessian ≠ some cexBlock4 ∧
    (cexBlock4.evaluate_hessian.map fun b1 =>
        b1.dependencies.map fun e => e.hessianAcc.length) = some [1] :=
  ⟨by decide, rfl⟩

/-- C4 amended: adjoint propagation with no adjoint seed, tangent propagation
with no tangent value on any dependency, and Hessian propagation with no
Hessian seed are each a no-op that raises nothing; a missing adjoint seed or
missing tangent values do not make Hessian propagation a no-op when the
Hessian seed is present. -/
theorem missing_seed_noop (b : AssembleBlock) :
    (b.out.adjValue = none → b.evaluate_adj = some b) ∧
    ((∀ e ∈ b.dependencies, e.tlmValue = none) → b.evaluate_tlm = b) ∧
    (b.out.hessianValue = none → b.evaluate_hessian = some b) := by
  refine ⟨?_, ?_, ?_⟩
  · intro h
    unfold AssembleBlock.evaluate_adj
    rw [h]
  · intro h
    have hnil : b.dependencies.filterMap
        (tlmStep (Form.replace b.form (replacedCoeffs b.dependencies))
          (replacedCoeffs b.dependencies)) = [] := by
      rw [List.filterMap_eq_nil_iff]
      intro e he
      simp [tlmStep, h e he]
    simp only [AssembleBlock.evaluate_tlm, hnil, List.append_nil]
  · intro h
    unfold AssembleBlock.evaluate_hessian
    rw [h]

/-- A block with no seeds and no tangent values at all. -/
def witBlock4 : AssembleBlock :=
  { form := .base [⟨0, .constant⟩] 1
  , dependencies := [mkEdge ⟨0, .constant⟩ 0 none]
  , out := freshSlot }

theorem missing_seed_noop_witness :
    witBlock4.evaluate_adj = some witBlock4 ∧
    witBlock4.evaluate_tlm = witBlock4 ∧
    witBlock4.evaluate_hessian = some witBlock4 :=
  ⟨(missing_seed_noop witBlock4).1 rfl,
   (missing_seed_noop witBlock4).2.1 (by decide),
   (missing_seed_noop witBlock4).2.2 rfl⟩

/-- The adjoint contribution the spec prescribes for one dependency: seed
times the assembled derivative of the substituted form at the replaced value,
in a per-kind test direction — the field's own function space for a Function,
the sensitivity space on the original form's mesh for a Constant, and for an
Expression a (value, space) pair over the expression's function space on the
original form's mesh. -/
def adjContribution (origForm form : Form) (subst : List (Coeff × Nat))
    (adjIn : Nat) (e : BlockOutput) : AdjContribution :=
  match e.output.kind with
  | .function =>
    .plain (.smul adjIn (.assembled (.deriv form (dictGet subst e.output)
      (.testFunction (.functionSpace e.output)))))
  | .constant =>
    .plain (.smul adjIn (.assembled (.deriv form (dictGet subst e.output)
      (.testFunction (.adFunctionSpace e.output
        (extractMeshFromForm origForm))))))
  | .expression =>
    .pairs [(.smul adjIn (.assembled (.deriv form (dictGet subst e.output)
      (.testFunction (.adFunctionSpace e.output origForm.uflDomainCargo)))),
      .adFunctionSpace e.output origForm.uflDomainCargo)]
  | .other => .plain (.assembled form)

/-- The per-edge update the spec prescribes for the adjoint pass: push the
per-kind contribution onto the edge's adjoint accumulator. -/
def adjSpecUpdate (origForm form : Form) (subst : List (Coeff × Nat))
    (adjIn : Nat) (e : BlockOutput) : BlockOutput :=
  { e with adjAcc := e.adjAcc ++ [adjContribution origForm form subst adjIn e] }

theorem adjLoop_all_recognized (origForm form : Form)
    (subst : List (Coeff × Nat)) (adjIn : Nat) :
    ∀ (l : List BlockOutput) (dc : Option Direction),
      (∀ e ∈ l, e.output.kind ≠ CoeffKind.other) →
      adjLoop origForm form subst adjIn dc l =
        some (l.map (adjSpecUpdate origForm form subst adjIn))
  | [], _, _ => rfl
  | bo :: rest, dc, h => by
    have hbo : bo.output.kind ≠ CoeffKind.other :=
      h bo (List.mem_cons_self _ _)
    cases hk : bo.output.kind with
    | other => exact absurd hk hbo
    | function =>
      simp [adjLoop, adjStep, hk, adjContribution, adjSpecUpdate,
        adjLoop_all_recognized origForm form subst adjIn rest
          (some (Direction.testFunction (.functionSpace bo.output)))
          (fun e he => h e (List.mem_cons_of_mem _ he))]
    | constant =>
      simp [adjLoop, adjStep, hk, adjContribution, adjSpecUpdate,
        adjLoop_all_recognized origForm form subst adjIn rest
          (some (Direction.testFunction
            (.adFunctionSpace bo.output (extractMeshFromForm origForm))))
          (fun e he => h e (List.mem_cons_of_mem _ he))]
    | expression =>
      simp [adjLoop, adjStep, hk, adjContribution, adjSpecUpdate,
        adjLoop_all_recognized origForm form subst adjIn rest
          (some (Direction.testFunction
            (.adFunctionSpace bo.output origForm.uflDomainCargo)))
          (fun e he => h e (List.mem_cons_of_mem _ he))]

/-- C1: with a present adjoint seed, evaluate_adj builds the substituted form
and, for each dependency of recognized kind, accumulates exactly seed times
the assembled derivative of the substituted form with respect to that
dependency in a per-kind test direction: the field's own function space for a
Function, the Constant's sensitivity space on the form's mesh for a Constant,
and for an Expression the (value, space) pair over the expression's function
space rather than a bare value. -/
theorem adjoint_per_kind_contribution (b : AssembleBlock) (a : Nat)
    (hseed : b.out.adjValue = some a)
    (hrec : ∀ e ∈ b.dependencies, e.output.kind ≠ CoeffKind.other) :
    b.evaluate_adj = some { b with dependencies := (b.dependencies.map
      (adjSpecUpdate b.form
        (Form.replace b.form (replacedCoeffs b.dependencies))
        (replacedCoeffs b.dependencies) a)) } := by
  simp only [AssembleBlock.evaluate_adj, hseed,
    adjLoop_all_recognized b.form
      (Form.replace b.form (replacedCoeffs b.dependencies))
      (replacedCoeffs b.dependencies) a b.dependencies none hrec]
  rfl

/-- A block with one dependency of each recognized kind and an adjoint seed
present. -/
def witBlock1 : AssembleBlock :=
  { form := .base [⟨0, .function⟩, ⟨1, .constant⟩, ⟨2, .expression⟩] 7
  , dependencies :=
      [mkEdge ⟨0, .function⟩ 10 none, mkEdge ⟨1, .constant⟩ 11 none,
       mkEdge ⟨2, .expression⟩ 12 none]
  , out := mkSlot (some 3) none }

theorem adjoint_per_kind_contribution_witness :
    witBlock1.evaluate_adj = some { witBlock1 with dependencies := (witBlock1.dependencies.map
      (adjSpecUpdate witBlock1.form
        (Form.replace witBlock1.form (replacedCoeffs witBlock1.dependencies))
        (replacedCoeffs witBlock1.dependencies) 3)) } :=
  adjoint_per_kind_contribution witBlock1 3 rfl (by decide)

/-- The test space the Hessian pass builds for an outer dependency of each
recognized kind (the value at an unrecognized kind is never used). -/
def hessTestSpace (form : Form) (c1 : Coeff) : Space :=
  match c1.kind with
  | .function => .functionSpace c1
  | .expression => .adFunctionSpace c1 form.uflDomainCargo
  | .constant => .adFunctionSpace c1 (extractMeshFromForm form)
  | .other => .functionSpace c1

/-- The first derivative of the substituted form against the outer
dependency's per-kind test direction. -/
def hessDform (form : Form) (subst : List (Coeff × Nat)) (c1 : Coeff) : Form :=
  .deriv form (dictGet subst c1) (.testFunction (hessTestSpace form c1))

/-- The inner contribution the spec prescribes for one inner dependency:
nothing without a tangent value, else adjoint seed times the assembled second
derivative taken with respect to the inner dependency in its tangent
direction, wrapped in a (value, space) pair when the outer dependency is an
Expression. -/
def hessInnerContribution (subst : List (Coeff × Nat)) (dform : Form)
    (adjIn : Nat) (c1kind : CoeffKind) (W : Space) (e2 : BlockOutput) :
    Option AdjContribution :=
  match e2.tlmValue with
  | none => none
  | some t =>
    match c1kind with
    | .function => some (.plain (.smul adjIn (.assembled
        (.deriv dform (dictGet subst e2.output) (.coeffValue t)))))
    | .constant => some (.plain (.smul adjIn (.assembled
        (.deriv dform (dictGet subst e2.output) (.coeffValue t)))))
    | .expression => some (.pairs [(.smul adjIn (.assembled
        (.deriv dform (dictGet subst e2.output) (.coeffValue t))), W)])
    | .other => none

/-- The contribution pushed after the inner loop: hessian seed times the
assembled unmixed first derivative, wrapped in a (value, space) pair when the
outer dependency is an Expression. -/
def hessStep3 (hessIn : Nat) (c1kind : CoeffKind) (W : Space) (dform : Form) :
    AdjContribution :=
  match c1kind with
  | .expression => .pairs [(.smul hessIn (.assembled dform), W)]
  | _ => .plain (.smul hessIn (.assembled dform))

/-- The per-edge update the spec prescribes for the Hessian pass: skip an
unrecognized outer kind, else push the inner contributions of all
dependencies followed by the unmixed first-derivative contribution. -/
def hessSpecUpdate (form : Form) (subst : List (Coeff × Nat))
    (adjIn hessIn : Nat) (deps : List BlockOutput) (e : BlockOutput) :
    BlockOutput :=
  if e.output.kind = .other then e
  else { e with hessianAcc := e.hessianAcc
    ++ deps.filterMap (hessInnerContribution subst (hessDform form subst e.output)
        adjIn e.output.kind (hessTestSpace form e.output))
    ++ [hessStep3 hessIn e.output.kind (hessTestSpace form e.output)
        (hessDform form subst e.output)] }

theorem hessInnerLoop_some_adj (subst : List (Coeff × Nat)) (dform : Form)
    (a : Nat) (k : CoeffKind) (W : Space) :
    ∀ l : List BlockOutput,
      hessInnerLoop subst dform (some a) k W l =
        some (l.filterMap (hessInnerContribution subst dform a k W))
  | [] => rfl
  | bo2 :: rest => by
    have ih := fun k1 => hessInnerLoop_some_adj subst dform a k1 W rest
    cases ht : bo2.tlmValue with
    | none => simp [hessInnerLoop, hessInnerContribution, ht, ih]
    | some t =>
      cases k <;> simp [hessInnerLoop, hessInnerContribution, ht, ih]

theorem hessOuterStep_some_adj (form : Form) (subst : List (Coeff × Nat))
    (a hessIn : Nat) (deps : List BlockOutput) (bo1 : BlockOutput) :
    hessOuterStep form subst (some a) hessIn deps bo1 =
      some (hessSpecUpdate form subst a hessIn deps bo1) := by
  cases hk : bo1.output.kind with
  | function =>
    simp [hessOuterStep, hessSpecUpdate, hessDform, hessTestSpace, hessStep3,
      hk, hessInnerLoop_some_adj]
  | constant =>
    simp [hessOuterStep, hessSpecUpdate, hessDform, hessTestSpace, hessStep3,
      hk, hessInnerLoop_some_adj]
  | expression =>
    simp [hessOuterStep, hessSpecUpdate, hessDform, hessTestSpace, hessStep3,
      hk, hessInnerLoop_some_adj]
  | other => simp [hessOuterStep, hessSpecUpdate, hk]

theorem hessOuterLoop_some_adj (form : Form) (subst : List (Coeff × Nat))
    (a hessIn : Nat) (deps : List BlockOutput) :
    ∀ l : List BlockOutput,
      hessOuterLoop form subst (some a) hessIn deps l =
        some (l.map (hessSpecUpdate form subst a hessIn deps))
  | [] => rfl
  | bo1 :: rest => by
    simp [hessOuterLoop, hessOuterStep_some_adj,
      hessOuterLoop_some_adj form subst a hessIn deps rest]

/-- C2: with both the Hessian seed and the adjoint seed present,
evaluate_hessian updates each dependency of recognized outer kind by first
building the derivative of the substituted form against its per-kind test
direction, then accumulating, for every inner dependency carrying a tangent
value, the adjoint seed times the assembled second derivative with respect to
that inner dependency in its tangent direction — as a (value, space) pair
when the outer dependency is an Expression — and finally accumulating the
hessian seed times the assembled unmixed first derivative; unrecognized outer
kinds are left untouched. -/
theorem hessian_per_kind_contribution (b : AssembleBlock) (a hs : Nat)
    (hadj : b.out.adjValue = some a) (hhess : b.out.hessianValue = some hs) :
    b.evaluate_hessian = some { b with dependencies := (b.dependencies.map
      (hessSpecUpdate (Form.replace b.form (replacedCoeffs b.dependencies))
        (replacedCoeffs b.dependencies) a hs b.dependencies)) } := by
  simp only [AssembleBlock.evaluate_hessian, hadj, hhess,
    hessOuterLoop_some_adj (Form.replace b.form (replacedCoeffs b.dependencies))
      (replacedCoeffs b.dependencies) a hs b.dependencies b.dependencies]
  rfl

/-- A block with a Function and an Expression dependency, a tangent value on
the first, and both seeds present. -/
def witBlock2 : AssembleBlock :=
  { form := .base [⟨0, .function⟩, ⟨1, .expression⟩] 6
  , dependencies := [mkEdge ⟨0, .function⟩ 8 (some 5), mkEdge ⟨1, .expression⟩ 9 none]
  , out := mkSlot (some 2) (some 3) }

theorem hessian_per_kind_contribution_witness :
    witBlock2.evaluate_hessian = some { witBlock2 with dependencies := (witBlock2.dependencies.map
      (hessSpecUpdate (Form.replace witBlock2.form (replacedCoeffs witBlock2.dependencies))
        (replacedCoeffs witBlock2.dependencies) 2 3 witBlock2.dependencies)) } :=
  hessian_per_kind_contribution witBlock2 2 3 rfl rfl

/-- C5: a block is created, registered on the tape and linked to the
output's bookkeeping slot exactly when annotation is active and the backend
result is a scalar; otherwise the tape is untouched, and a vector or matrix
result only receives the originating form as metadata. -/
theorem assemble_registers_iff_annotated_scalar (an : Bool) (f : Form)
    (br : BackendOutput) (slotOf : Coeff → BlockOutput) (t : Tape) :
    ((assemble an f br slotOf t).1 = t ↔ ¬(an = true ∧ br.isScalar = true)) ∧
    (∀ v, an = true → br = BackendOutput.scalar v →
      ∃ blk : AssembleBlock,
        (assemble an f br slotOf t).1.blocks = t.blocks ++ [blk] ∧
        blk.form = f ∧
        blk.dependencies = f.coefficients.map slotOf ∧
        (assemble an f br slotOf t).2
          = AssembleReturn.floatOut { val := v, blockOutput := blk.out }) ∧
    (∀ v, br = BackendOutput.vecmat v →
      (assemble an f br slotOf t).1 = t ∧
      (assemble an f br slotOf t).2 = AssembleReturn.vecmatOut v (some f)) := by
  obtain ⟨tb⟩ := t
  cases br with
  | scalar v =>
    cases an with
    | true =>
      refine ⟨?_, ?_, ?_⟩
      · simp [assemble, BackendOutput.isScalar, Tape.mk.injEq]
      · intro w _ heq
        cases heq
        exact ⟨_, rfl, rfl, rfl, rfl⟩
      · intro w heq
        cases heq
    | false =>
      refine ⟨?_, ?_, ?_⟩
      · simp [assemble, BackendOutput.isScalar]
      · intro w hfalse _
        cases hfalse
      · intro w heq
        cases heq
  | vecmat v =>
    refine ⟨?_, ?_, ?_⟩
    · simp [assemble, BackendOutput.isScalar]
    · intro w _ heq
      cases heq
    · intro w heq
      cases heq
      exact ⟨rfl, rfl⟩

/-- A form with a single Function coefficient. -/
def witForm5 : Form := .base [⟨0, .function⟩] 2

theorem assemble_registers_iff_annotated_scalar_witness :
    (assemble true witForm5 (BackendOutput.vecmat 4) witSlotOf ⟨[]⟩).1 = ⟨[]⟩ ∧
    (assemble true witForm5 (BackendOutput.vecmat 4) witSlotOf ⟨[]⟩).2
      = AssembleReturn.vecmatOut 4 (some witForm5) :=
  (assemble_registers_iff_annotated_scalar true witForm5
    (BackendOutput.vecmat 4) witSlotOf ⟨[]⟩).2.2 4 rfl

/-- C9: no propagation operation writes the form stored on the node — every
result block of recompute, tangent, adjoint and Hessian propagation carries
the original form unchanged, each operation working only on the derived
substituted form. -/
theorem form_never_mutated (b : AssembleBlock) :
    b.recompute.form = b.form ∧
    b.evaluate_tlm.form = b.form ∧
    (∀ b1 ∈ b.evaluate_adj, b1.form = b.form) ∧
    (∀ b1 ∈ b.evaluate_hessian, b1.form = b.form) := by
  refine ⟨rfl, rfl, ?_, ?_⟩
  · intro b1 h1
    cases hs : b.out.adjValue with
    | none =>
      simp only [AssembleBlock.evaluate_adj, hs, Option.mem_def,
        Option.some.injEq] at h1
      subst h1
      rfl
    | some a =>
      simp only [AssembleBlock.evaluate_adj, hs, Option.mem_def,
        Option.map_eq_some'] at h1
      obtain ⟨deps, -, h2⟩ := h1
      subst h2
      rfl
  · intro b1 h1
    cases hs : b.out.hessianValue with
    | none =>
      simp only [AssembleBlock.evaluate_hessian, hs, Option.mem_def,
        Option.some.injEq] at h1
      subst h1
      rfl
    | some hv =>
      simp only [AssembleBlock.evaluate_hessian, hs, Option.mem_def,
        Option.map_eq_some'] at h1
      obtain ⟨deps, -, h2⟩ := h1
      subst h2
      rfl

/-- A block with one Function dependency and an adjoint seed present. -/
def witBlock9 : AssembleBlock :=
  { form := .base [⟨0, .function⟩] 3
  , dependencies := [mkEdge ⟨0, .function⟩ 4 none]
  , out := mkSlot (some 2) none }

/-- The block evaluate_adj produces from witBlock9. -/
def witBlock9adj : AssembleBlock :=
  { witBlock9 with dependencies := [{ mkEdge ⟨0, .function⟩ 4 none with
      adjAcc := [.plain (.smul 2 (.assembled (.deriv
        (.replace (.base [⟨0, .function⟩] 3) [(⟨0, .function⟩, 4)])
        (.saved 4) (.testFunction (.functionSpace ⟨0, .function⟩)))))] }] }

theorem form_never_mutated_witness : witBlock9adj.form = witBlock9.form :=
  (form_never_mutated witBlock9).2.2.1 witBlock9adj rfl

/-- C10: a float backend result is always returned as the overloaded
annotated wrapper, whether or not annotation is active, and never as the raw
float; form metadata is attached to vector and matrix results only, a scalar
result carrying no form back-reference. -/
theorem scalar_always_wrapped_no_form_meta (an : Bool) (f : Form) (v : Nat)
    (slotOf : Coeff → BlockOutput) (t : Tape) :
    (assemble an f (BackendOutput.scalar v) slotOf t).2
        = AssembleReturn.floatOut { val := v, blockOutput := freshSlot } ∧
    ((assemble an f (BackendOutput.scalar v) slotOf t).2).formMeta = none ∧
    ((assemble an f (BackendOutput.vecmat v) slotOf t).2).formMeta = some f := by
  cases an <;> exact ⟨rfl, rfl, rfl⟩

end FenicsAdjoint
